import Mathlib

/-!
Verification of the checkpoint-retention policies of
`src/parakeet/training/checkpoint.py`: the `KBest` and `KLatest` retainers.

The Python classes are embedded shallowly:
* the insertion-ordered `dict` `best_records` becomes an association list
  `List (ι × α)` with Python-dict semantics (`dictInsert` updates an existing
  key in place, otherwise appends; `dictPop` removes a key);
* `max(d, key=d.get)` becomes `worstRecord`, returning the first entry with
  the maximal value (CPython's `max` keeps the first maximal element, and
  dict iteration order is insertion order);
* user-supplied callbacks `save_fn` / `del_fn` are modelled by success
  predicates `ι → Bool` (`true` = the callback returns, `false` = it raises);
* every invocation of a callback is recorded in an event log, and a method
  either returns normally (`StepResult.ok`) or raises (`StepResult.err`);
  in both cases the resulting object state and the log so far are kept,
  matching the state of the Python object when an exception propagates.

Scores (`metric`) are kept abstract over a linear order, which captures the
behaviour of Python float comparison on the values the class is actually
given; identifiers (`path`) are an abstract type with decidable equality.
-/

set_option autoImplicit false

namespace Parakeet

variable {ι α : Type}

/-- A callback invocation: `save p` is a call `save_fn(p)`, `del p` a call
`del_fn(p)`. -/
inductive CbEvent (ι : Type) where
  | save (p : ι)
  | del (p : ι)
  deriving DecidableEq, Repr

/-- Outcome of one Python method call: `ok` = returned normally, `err` = an
exception propagated.  Both carry the object state afterwards and the list of
callback invocations that happened during the call, in order. -/
inductive StepResult (σ ι : Type) where
  | ok (s : σ) (log : List (CbEvent ι))
  | err (s : σ) (log : List (CbEvent ι))
  deriving DecidableEq, Repr

/-- The object state after the call, whether it returned or raised. -/
def stateOf {σ : Type} : StepResult σ ι → σ
  | .ok s _ => s
  | .err s _ => s

/-- The callback invocations made during the call. -/
def logOf {σ : Type} : StepResult σ ι → List (CbEvent ι)
  | .ok _ log => log
  | .err _ log => log

/-- Whether the call returned normally. -/
def isOk {σ : Type} : StepResult σ ι → Bool
  | .ok _ _ => true
  | .err _ _ => false

/-- The identifiers passed to `save_fn`, in call order. -/
def logSaves : List (CbEvent ι) → List ι
  | [] => []
  | .save p :: rest => p :: logSaves rest
  | .del _ :: rest => logSaves rest

/-- The identifiers passed to `del_fn`, in call order. -/
def logDels : List (CbEvent ι) → List ι
  | [] => []
  | .save _ :: rest => logDels rest
  | .del p :: rest => p :: logDels rest

/-- A callback that always succeeds. -/
def alwaysOk : ι → Bool := fun _ => true

/-- Python `max(tail ∪ {cur}, key=get)` scan: keep the current record, replace
it only when a later value is strictly greater. -/
def pyMaxRecord [LinearOrder α] : ι × α → List (ι × α) → ι × α
  | cur, [] => cur
  | cur, kv :: rest => if cur.2 < kv.2 then pyMaxRecord kv rest else pyMaxRecord cur rest

/-- `max(self.best_records, key=self.best_records.get)` paired with the
subsequent value lookup: the first entry carrying the maximal value, or
`none` when the dict is empty (Python raises `ValueError`). -/
def worstRecord [LinearOrder α] : List (ι × α) → Option (ι × α)
  | [] => none
  | kv :: rest => some (pyMaxRecord kv rest)

/-- Python dict assignment `d[k] = v`: update an existing key in place
(keeping its position), otherwise append. -/
def dictInsert [DecidableEq ι] (k : ι) (v : α) : List (ι × α) → List (ι × α)
  | [] => [(k, v)]
  | kv :: rest => if kv.1 = k then (k, v) :: rest else kv :: dictInsert k v rest

/-- Python dict `d.pop(k)` for a present key: drop the entry with key `k`. -/
def dictPop [DecidableEq ι] (k : ι) : List (ι × α) → List (ι × α)
  | [] => []
  | kv :: rest => if kv.1 = k then rest else kv :: dictPop k rest

/-- Python dict `k in d` / lookup of the value stored at `k`. -/
def dictFind [DecidableEq ι] (k : ι) : List (ι × α) → Option α
  | [] => none
  | kv :: rest => if kv.1 = k then some kv.2 else dictFind k rest

/-- State of `class KBest`: the `best_records` dict, the `max_size` argument
and the `_save_all` flag computed in `__init__`. -/
structure KBest (ι α : Type) where
  best_records : List (ι × α)
  max_size : Int
  save_all : Bool
  deriving DecidableEq, Repr

/-- `KBest.__init__`: empty records, `_save_all = (max_size == -1)`.
No validation is performed on `max_size`. -/
def KBest.init (max_size : Int) : KBest ι α :=
  ⟨[], max_size, decide (max_size = -1)⟩

/-- `KBest.full`: `(not self._save_all) and len(self.best_records) == self.max_size`. -/
def KBest.full (s : KBest ι α) : Bool :=
  !s.save_all && decide ((s.best_records.length : Int) = s.max_size)

/-- `KBest.should_save`: `True` when not full, otherwise compare against the
worst retained metric.  `max` over an empty dict raises (`.error`). -/
def KBest.should_save [LinearOrder α] (s : KBest ι α) (metric : α) : Except Unit Bool :=
  if !s.full then .ok true
  else
    match worstRecord s.best_records with
    | none => .error ()
    | some w => .ok (decide (metric < w.2))

/-- `KBest.save_checkpoint_and_update`: when full, pop the worst record from
the dict and then call `del_fn` on it; then call `save_fn` and store the new
record.  The pop happens before the `del_fn` call, as in the source. -/
def KBest.save_checkpoint_and_update [DecidableEq ι] [LinearOrder α]
    (del_fn save_fn : ι → Bool) (s : KBest ι α) (metric : α) (path : ι) :
    StepResult (KBest ι α) ι :=
  if s.full then
    match worstRecord s.best_records with
    | none => .err s []
    | some w =>
      if del_fn w.1 then
        if save_fn path then
          .ok ⟨dictInsert path metric (dictPop w.1 s.best_records), s.max_size, s.save_all⟩
            [.del w.1, .save path]
        else .err ⟨dictPop w.1 s.best_records, s.max_size, s.save_all⟩ [.del w.1, .save path]
      else .err ⟨dictPop w.1 s.best_records, s.max_size, s.save_all⟩ [.del w.1]
  else
    if save_fn path then
      .ok ⟨dictInsert path metric s.best_records, s.max_size, s.save_all⟩ [.save path]
    else .err s [.save path]

/-- `KBest.add_checkpoint`: save-and-update when `should_save` says so,
otherwise a no-op; an exception from `should_save` propagates. -/
def KBest.add_checkpoint [DecidableEq ι] [LinearOrder α]
    (del_fn save_fn : ι → Bool) (s : KBest ι α) (metric : α) (path : ι) :
    StepResult (KBest ι α) ι :=
  match s.should_save metric with
  | .error _ => .err s []
  | .ok true => s.save_checkpoint_and_update del_fn save_fn metric path
  | .ok false => .ok s []

/-- Drive a `KBest` instance through a sequence of `(metric, path)` offers,
stopping at the first exception, concatenating the callback logs. -/
def KBest.runOffers [DecidableEq ι] [LinearOrder α]
    (del_fn save_fn : ι → Bool) (s : KBest ι α) :
    List (α × ι) → StepResult (KBest ι α) ι
  | [] => .ok s []
  | o :: rest =>
    match s.add_checkpoint del_fn save_fn o.1 o.2 with
    | .ok s1 log1 =>
      match KBest.runOffers del_fn save_fn s1 rest with
      | .ok s2 log2 => .ok s2 (log1 ++ log2)
      | .err s2 log2 => .err s2 (log1 ++ log2)
    | .err s1 log1 => .err s1 log1

/-- State of `class KLatest`: the `latest_records` list, `max_size` and
`_save_all`. -/
structure KLatest (ι : Type) where
  latest_records : List ι
  max_size : Int
  save_all : Bool
  deriving DecidableEq, Repr

/-- `KLatest.__init__`: empty records, `_save_all = (max_size == -1)`.
No validation is performed on `max_size`. -/
def KLatest.init (max_size : Int) : KLatest ι :=
  ⟨[], max_size, decide (max_size = -1)⟩

/-- `KLatest.full`: `(not self._save_all) and len(self.latest_records) == self.max_size`. -/
def KLatest.full (s : KLatest ι) : Bool :=
  !s.save_all && decide ((s.latest_records.length : Int) = s.max_size)

/-- `KLatest.save_checkpoint_and_update`: when full, `pop(0)` the earliest
record (raising `IndexError` on an empty list) and then call `del_fn` on it;
then call `save_fn` and append the new record. -/
def KLatest.save_checkpoint_and_update [DecidableEq ι]
    (del_fn save_fn : ι → Bool) (s : KLatest ι) (path : ι) :
    StepResult (KLatest ι) ι :=
  if s.full then
    match s.latest_records with
    | [] => .err s []
    | e :: rest =>
      if del_fn e then
        if save_fn path then
          .ok ⟨rest ++ [path], s.max_size, s.save_all⟩ [.del e, .save path]
        else .err ⟨rest, s.max_size, s.save_all⟩ [.del e, .save path]
      else .err ⟨rest, s.max_size, s.save_all⟩ [.del e]
  else
    if save_fn path then
      .ok ⟨s.latest_records ++ [path], s.max_size, s.save_all⟩ [.save path]
    else .err s [.save path]

/-- `KLatest.add_checkpoint` just delegates to `save_checkpoint_and_update`:
every offer is attempted unconditionally. -/
def KLatest.add_checkpoint [DecidableEq ι]
    (del_fn save_fn : ι → Bool) (s : KLatest ι) (path : ι) :
    StepResult (KLatest ι) ι :=
  s.save_checkpoint_and_update del_fn save_fn path

/-- Drive a `KLatest` instance through a sequence of offered paths. -/
def KLatest.runOffers [DecidableEq ι]
    (del_fn save_fn : ι → Bool) (s : KLatest ι) :
    List ι → StepResult (KLatest ι) ι
  | [] => .ok s []
  | p :: rest =>
    match s.add_checkpoint del_fn save_fn p with
    | .ok s1 log1 =>
      match KLatest.runOffers del_fn save_fn s1 rest with
      | .ok s2 log2 => .ok s2 (log1 ++ log2)
      | .err s2 log2 => .err s2 (log1 ++ log2)
    | .err s1 log1 => .err s1 log1

/-- Modelled from the spec: the reference online simulation of Best-K
("accepts an offer iff there is free capacity or the score is strictly lower
than the current worst retained score"). The acceptance test for one offer. -/
def refAccept [LinearOrder α] (K : Int) (retained : List (ι × α)) (score : α) : Bool :=
  decide ((retained.length : Int) < K) ||
    (match worstRecord retained with
     | none => false
     | some w => decide (score < w.2))

/-- Modelled from the spec: one step of the reference online simulation
("on acceptance at capacity evicts exactly the currently worst-scoring
retained identifier before inserting the new pair"; under ties the worst is
the first retained entry carrying the maximal score, the spec's
deterministic first-maximal tie-break). -/
def refStep [DecidableEq ι] [LinearOrder α]
    (K : Int) (retained : List (ι × α)) (score : α) (ident : ι) : List (ι × α) :=
  if refAccept K retained score then
    if decide ((retained.length : Int) < K) then dictInsert ident score retained
    else
      match worstRecord retained with
      | none => retained
      | some w => dictInsert ident score (dictPop w.1 retained)
  else retained

/-- Modelled from the spec: the reference online simulation run from the
empty retained map over a sequence of `(score, identifier)` offers. -/
def refRun [DecidableEq ι] [LinearOrder α]
    (K : Int) (offers : List (α × ι)) : List (ι × α) :=
  offers.foldl (fun r o => refStep K r o.1 o.2) []

/-! ### Association-list lemmas -/

theorem pyMaxRecord_mem [LinearOrder α] (cur : ι × α) (l : List (ι × α)) :
    pyMaxRecord cur l ∈ cur :: l := by
  induction l generalizing cur with
  | nil => simp [pyMaxRecord]
  | cons kv rest ih =>
    simp only [pyMaxRecord]
    split
    · have h := ih kv
      simp only [List.mem_cons] at h ⊢
      tauto
    · have h := ih cur
      simp only [List.mem_cons] at h ⊢
      tauto

theorem worstRecord_mem [LinearOrder α] {l : List (ι × α)} {w : ι × α}
    (h : worstRecord l = some w) : w ∈ l := by
  cases l with
  | nil => simp [worstRecord] at h
  | cons kv rest =>
    simp only [worstRecord, Option.some_inj] at h
    rw [← h]
    exact pyMaxRecord_mem kv rest

theorem dictFind_isSome_of_mem [DecidableEq ι] {l : List (ι × α)} {k : ι} {v : α}
    (h : (k, v) ∈ l) : (dictFind k l).isSome = true := by
  induction l with
  | nil => simp at h
  | cons kv rest ih =>
    simp only [dictFind]
    split
    · simp
    · rcases List.mem_cons.mp h with h1 | h1
      · rename_i hne
        rw [← h1] at hne
        simp at hne
      · exact ih h1

theorem dictPop_length [DecidableEq ι] {l : List (ι × α)} {k : ι}
    (h : (dictFind k l).isSome = true) : l.length = (dictPop k l).length + 1 := by
  induction l with
  | nil => simp [dictFind] at h
  | cons kv rest ih =>
    simp only [dictFind] at h
    simp only [dictPop]
    split
    · simp
    · rename_i hne
      rw [if_neg hne] at h
      simp [ih h]

theorem dictInsert_length_le [DecidableEq ι] (k : ι) (v : α) (l : List (ι × α)) :
    (dictInsert k v l).length ≤ l.length + 1 := by
  induction l with
  | nil => simp [dictInsert]
  | cons kv rest ih =>
    simp only [dictInsert]
    split
    · simp
    · simpa using Nat.succ_le_succ ih

theorem dictInsert_length_of_find [DecidableEq ι] {l : List (ι × α)} {k : ι}
    (h : (dictFind k l).isSome = true) (v : α) :
    (dictInsert k v l).length = l.length := by
  induction l with
  | nil => simp [dictFind] at h
  | cons kv rest ih =>
    simp only [dictFind] at h
    simp only [dictInsert]
    split
    · simp
    · rename_i hne
      rw [if_neg hne] at h
      simp [ih h]

theorem dictFind_dictInsert_self [DecidableEq ι] (k : ι) (v : α) (l : List (ι × α)) :
    dictFind k (dictInsert k v l) = some v := by
  induction l with
  | nil => simp [dictInsert, dictFind]
  | cons kv rest ih =>
    simp only [dictInsert]
    split
    · simp [dictFind]
    · rename_i hne
      simp only [dictFind, if_neg hne]
      exact ih

/-! ### C9: a rejected Best-K offer is a pure no-op -/

/-- C9.  Rejected offer is a pure no-op: whenever `should_save` returns
`False`, `add_checkpoint` returns normally with the object state unchanged
and no callback invoked — so the retained mapping and `full()` are the same
before and after the rejected offer. -/
theorem c9_rejected_offer_noop [DecidableEq ι] [LinearOrder α]
    (del_fn save_fn : ι → Bool) (s : KBest ι α) (metric : α) (path : ι)
    (h : s.should_save metric = .ok false) :
    s.add_checkpoint del_fn save_fn metric path = .ok s [] := by
  simp [KBest.add_checkpoint, h]

/-- C9 witness: a full `KBest` with capacity 1 holding `(0, 1)` rejects the
worse metric `5`, leaving the state untouched and the log empty. -/
theorem c9_rejected_offer_noop_witness :
    (⟨[(0, 1)], 1, false⟩ : KBest Nat Int).should_save 5 = .ok false ∧
      KBest.add_checkpoint alwaysOk alwaysOk (⟨[(0, 1)], 1, false⟩ : KBest Nat Int) 5 2
        = .ok ⟨[(0, 1)], 1, false⟩ [] :=
  ⟨rfl, c9_rejected_offer_noop alwaysOk alwaysOk ⟨[(0, 1)], 1, false⟩ 5 2 rfl⟩

/-! ### C5: capacity zero -/

/-- C5 counterexample.  With `max_size = 0` the claim fails: `should_save`
does not return `False` — `max()` over the empty `best_records` raises a
`ValueError` — and the offer does not return normally as a no-op but
propagates that exception (still with no callback invoked). -/
theorem c5_counterexample :
    (KBest.init 0 : KBest Nat Int).should_save 5 = .error () ∧
      KBest.add_checkpoint alwaysOk alwaysOk (KBest.init 0 : KBest Nat Int) 5 7
        = .err (KBest.init 0) [] := by
  constructor <;> rfl

/-- C5 (amended).  For a `KBest` with `max_size = 0`, every offer raises the
error coming from `max()` over the empty mapping instead of being cleanly
rejected; the `save_fn`/`del_fn` callbacks are never invoked and the retained
mapping stays empty. -/
theorem c5_zero_capacity [DecidableEq ι] [LinearOrder α]
    (del_fn save_fn : ι → Bool) (metric : α) (path : ι) (rest : List (α × ι)) :
    KBest.runOffers del_fn save_fn (KBest.init 0) ((metric, path) :: rest)
      = .err (KBest.init 0) [] := by
  simp [KBest.runOffers, KBest.add_checkpoint, KBest.should_save, KBest.full,
    KBest.init, worstRecord]

/-! ### C4: what happens when `del_fn` raises during an eviction -/

/-- C4 counterexample.  The claim (delete before removal from tracking, so a
failed delete leaves the evicted identifier tracked) is false: in both
retainers the evicted identifier is popped from the tracking structure
*before* `del_fn` is called, so when `del_fn` raises, the aborted offer
leaves a state that no longer contains the evicted identifier. -/
theorem c4_counterexample :
    KBest.add_checkpoint (fun _ => false) alwaysOk
        (⟨[(0, 5)], 1, false⟩ : KBest Nat Int) 3 1
      = .err ⟨[], 1, false⟩ [.del 0] ∧
      dictFind 0 (stateOf (KBest.add_checkpoint (fun _ => false) alwaysOk
        (⟨[(0, 5)], 1, false⟩ : KBest Nat Int) 3 1)).best_records = none ∧
      KLatest.add_checkpoint (fun _ => false) alwaysOk
        (⟨[0], 1, false⟩ : KLatest Nat) 1
      = .err ⟨[], 1, false⟩ [.del 0] ∧
      0 ∉ (stateOf (KLatest.add_checkpoint (fun _ => false) alwaysOk
        (⟨[0], 1, false⟩ : KLatest Nat) 1)).latest_records := by
  refine ⟨by decide, by decide, by decide, by decide⟩

/-- C4 (amended).  In both retainers the eviction removes the identifier from
the tracking structure first and only then invokes `del_fn`; hence if
`del_fn` raises, the offer aborts with the evicted identifier *already
removed* from tracking (and the new pair not yet added). -/
theorem c4_eviction_order [DecidableEq ι] [LinearOrder α] :
    (∀ (del_fn save_fn : ι → Bool) (s : KBest ι α) (metric : α) (path : ι) (w : ι × α),
      s.full = true → worstRecord s.best_records = some w → del_fn w.1 = false →
      s.save_checkpoint_and_update del_fn save_fn metric path
        = .err ⟨dictPop w.1 s.best_records, s.max_size, s.save_all⟩ [.del w.1]) ∧
    (∀ (del_fn save_fn : ι → Bool) (s : KLatest ι) (path : ι) (e : ι) (t : List ι),
      s.full = true → s.latest_records = e :: t → del_fn e = false →
      s.save_checkpoint_and_update del_fn save_fn path
        = .err ⟨t, s.max_size, s.save_all⟩ [.del e]) := by
  constructor
  · intro del_fn save_fn s metric path w hf hw hd
    simp [KBest.save_checkpoint_and_update, hf, hw, hd]
  · intro del_fn save_fn s path e t hf hr hd
    simp [KLatest.save_checkpoint_and_update, hf, hr, hd]

/-- C4 witness: concrete full retainers of capacity 1 where `del_fn` fails on
the evicted identifier; the residual states have the identifier removed. -/
theorem c4_eviction_order_witness :
    ((⟨[(9, 5)], 1, false⟩ : KBest Nat Int).full = true ∧
      worstRecord [((9 : Nat), (5 : Int))] = some (9, 5) ∧
      KBest.save_checkpoint_and_update (fun _ => false) alwaysOk
          (⟨[(9, 5)], 1, false⟩ : KBest Nat Int) 3 1
        = .err ⟨dictPop 9 [((9 : Nat), (5 : Int))], 1, false⟩ [.del 9]) ∧
    ((⟨[9], 1, false⟩ : KLatest Nat).full = true ∧
      KLatest.save_checkpoint_and_update (fun _ => false) alwaysOk
          (⟨[9], 1, false⟩ : KLatest Nat) 1
        = .err ⟨[], 1, false⟩ [.del 9]) :=
  ⟨⟨by decide, by decide,
    (c4_eviction_order (ι := Nat) (α := Int)).1 (fun _ => false) alwaysOk
      ⟨[(9, 5)], 1, false⟩ 3 1 (9, 5) (by decide) (by decide) rfl⟩,
   ⟨by decide,
    (c4_eviction_order (ι := Nat) (α := Int)).2 (fun _ => false) alwaysOk
      ⟨[9], 1, false⟩ 1 9 [] (by decide) rfl rfl⟩⟩

/-! ### C10: offering a duplicate identifier to a non-full `KBest` -/

/-- C10.  Duplicate-identifier overwrite: offering an identifier already
present in a bounded, non-full `KBest` calls `save_fn` again, overwrites the
stored score in place, keeps the retained-set size unchanged, and never
calls `del_fn`. -/
theorem c10_duplicate_overwrite [DecidableEq ι] [LinearOrder α]
    (del_fn save_fn : ι → Bool) (s : KBest ι α) (metric : α) (path : ι)
    (_hb : s.save_all = false) (_hK : 1 ≤ s.max_size) (hnf : s.full = false)
    (hmem : (dictFind path s.best_records).isSome = true) (hsf : save_fn path = true) :
    s.add_checkpoint del_fn save_fn metric path
        = .ok ⟨dictInsert path metric s.best_records, s.max_size, s.save_all⟩ [.save path] ∧
      (dictInsert path metric s.best_records).length = s.best_records.length ∧
      dictFind path (dictInsert path metric s.best_records) = some metric := by
  refine ⟨?_, dictInsert_length_of_find hmem metric, dictFind_dictInsert_self path metric _⟩
  simp [KBest.add_checkpoint, KBest.should_save, hnf,
    KBest.save_checkpoint_and_update, hsf]

/-- C10 witness: capacity 2 holding only `(0, 5)`; re-offering identifier 0
with metric 3 overwrites in place, size stays 1, no delete. -/
theorem c10_duplicate_overwrite_witness :
    ((⟨[(0, 5)], 2, false⟩ : KBest Nat Int).save_all = false ∧
      (1 : Int) ≤ 2 ∧ (⟨[(0, 5)], 2, false⟩ : KBest Nat Int).full = false ∧
      (dictFind 0 [((0 : Nat), (5 : Int))]).isSome = true ∧ alwaysOk 0 = true) ∧
    (KBest.add_checkpoint alwaysOk alwaysOk (⟨[(0, 5)], 2, false⟩ : KBest Nat Int) 3 0
        = .ok ⟨dictInsert 0 3 [((0 : Nat), (5 : Int))], 2, false⟩ [.save 0] ∧
      (dictInsert 0 3 [((0 : Nat), (5 : Int))]).length = 1 ∧
      dictFind 0 (dictInsert 0 3 [((0 : Nat), (5 : Int))]) = some 3) :=
  ⟨⟨rfl, by decide, by decide, by decide, rfl⟩,
    c10_duplicate_overwrite alwaysOk alwaysOk ⟨[(0, 5)], 2, false⟩ 3 0
      rfl (by decide) (by decide) (by decide) rfl⟩

/-! ### Runs in which `full` can never hold -/

/-- When `full` can never hold for this `max_size`/`_save_all` combination,
a run accepts every offer, inserts every pair, and only ever calls
`save_fn`. -/
theorem kbest_run_of_never_full [DecidableEq ι] [LinearOrder α]
    (K : Int) (b : Bool) (hnf : ∀ r : List (ι × α), KBest.full ⟨r, K, b⟩ = false) :
    ∀ (offers : List (α × ι)) (r : List (ι × α)),
      KBest.runOffers alwaysOk alwaysOk ⟨r, K, b⟩ offers
        = .ok ⟨offers.foldl (fun acc o => dictInsert o.2 o.1 acc) r, K, b⟩
            (offers.map (fun o => CbEvent.save o.2)) := by
  intro offers
  induction offers with
  | nil => intro r; simp [KBest.runOffers]
  | cons o rest ih =>
    intro r
    have hstep : KBest.add_checkpoint alwaysOk alwaysOk ⟨r, K, b⟩ o.1 o.2
        = .ok ⟨dictInsert o.2 o.1 r, K, b⟩ [.save o.2] := by
      simp [KBest.add_checkpoint, KBest.should_save, hnf r,
        KBest.save_checkpoint_and_update, alwaysOk]
    simp [KBest.runOffers, hstep, ih (dictInsert o.2 o.1 r)]

/-- `KLatest` analogue of `kbest_run_of_never_full`. -/
theorem klatest_run_of_never_full [DecidableEq ι]
    (K : Int) (b : Bool) (hnf : ∀ r : List ι, KLatest.full ⟨r, K, b⟩ = false) :
    ∀ (paths : List ι) (r : List ι),
      KLatest.runOffers alwaysOk alwaysOk ⟨r, K, b⟩ paths
        = .ok ⟨r ++ paths, K, b⟩ (paths.map CbEvent.save) := by
  intro paths
  induction paths with
  | nil => intro r; simp [KLatest.runOffers]
  | cons p rest ih =>
    intro r
    have hstep : KLatest.add_checkpoint alwaysOk alwaysOk ⟨r, K, b⟩ p
        = .ok ⟨r ++ [p], K, b⟩ [.save p] := by
      simp [KLatest.add_checkpoint, KLatest.save_checkpoint_and_update, hnf r, alwaysOk]
    simp [KLatest.runOffers, hstep, ih (r ++ [p])]

/-! ### C7: the unbounded sentinel `max_size = -1` -/

/-- C7.  Unbounded sentinel: constructed with `max_size = -1`, both retainers
accept and retain every offer, only `save_fn` is ever invoked (one call per
offer, so `del_fn` is never called) and no identifier is ever evicted:
`KBest` only accumulates `dictInsert`s, `KLatest` retains the whole offer
sequence. -/
theorem c7_unbounded_sentinel [DecidableEq ι] [LinearOrder α] :
    (∀ offers : List (α × ι),
      KBest.runOffers alwaysOk alwaysOk (KBest.init (-1)) offers
        = .ok ⟨offers.foldl (fun acc o => dictInsert o.2 o.1 acc) [], -1, true⟩
            (offers.map (fun o => CbEvent.save o.2))) ∧
    (∀ paths : List ι,
      KLatest.runOffers alwaysOk alwaysOk (KLatest.init (-1)) paths
        = .ok ⟨paths, -1, true⟩ (paths.map CbEvent.save)) := by
  constructor
  · intro offers
    exact kbest_run_of_never_full (-1) true (fun r => by simp [KBest.full]) offers []
  · intro paths
    exact klatest_run_of_never_full (-1) true (fun r => by simp [KLatest.full]) paths []

/-! ### C6: negative `max_size` other than the sentinel -/

/-- C6 counterexample.  Construction with `max_size = -2` (negative, not the
sentinel) signals no error of any kind: `__init__` performs no validation,
yields an ordinary state, and the retainer silently accepts offers. -/
theorem c6_counterexample :
    (KBest.init (-2) : KBest Nat Int) = ⟨[], -2, false⟩ ∧
      KBest.add_checkpoint alwaysOk alwaysOk (KBest.init (-2) : KBest Nat Int) 1 0
        = .ok ⟨[(0, 1)], -2, false⟩ [.save 0] ∧
      (KLatest.init (-2) : KLatest Nat) = ⟨[], -2, false⟩ ∧
      KLatest.add_checkpoint alwaysOk alwaysOk (KLatest.init (-2) : KLatest Nat) 0
        = .ok ⟨[0], -2, false⟩ [.save 0] :=
  ⟨by decide, by decide, by decide, by decide⟩

/-- C6 (amended).  A negative `max_size` other than `-1` is silently
accepted: construction succeeds with no validation, `full` then never holds,
and both retainers behave as unbounded (every offer accepted, nothing ever
evicted, `del_fn` never called). -/
theorem c6_negative_max_size [DecidableEq ι] [LinearOrder α] (K : Int) (hK : K < -1) :
    ((KBest.init K : KBest ι α) = ⟨[], K, false⟩ ∧
      (∀ r : List (ι × α), KBest.full ⟨r, K, false⟩ = false) ∧
      (KLatest.init K : KLatest ι) = ⟨[], K, false⟩ ∧
      (∀ r : List ι, KLatest.full ⟨r, K, false⟩ = false)) ∧
    (∀ offers : List (α × ι),
      KBest.runOffers alwaysOk alwaysOk (KBest.init K : KBest ι α) offers
        = .ok ⟨offers.foldl (fun acc o => dictInsert o.2 o.1 acc) [], K, false⟩
            (offers.map (fun o => CbEvent.save o.2))) ∧
    (∀ paths : List ι,
      KLatest.runOffers alwaysOk alwaysOk (KLatest.init K : KLatest ι) paths
        = .ok ⟨paths, K, false⟩ (paths.map CbEvent.save)) := by
  have hKne : K ≠ -1 := by omega
  have hinitB : (KBest.init K : KBest ι α) = ⟨[], K, false⟩ := by
    simp [KBest.init, hKne]
  have hinitL : (KLatest.init K : KLatest ι) = ⟨[], K, false⟩ := by
    simp [KLatest.init, hKne]
  have hnfB : ∀ r : List (ι × α), KBest.full ⟨r, K, false⟩ = false := by
    intro r
    simp only [KBest.full, Bool.not_false, Bool.true_and, decide_eq_false_iff_not]
    omega
  have hnfL : ∀ r : List ι, KLatest.full ⟨r, K, false⟩ = false := by
    intro r
    simp only [KLatest.full, Bool.not_false, Bool.true_and, decide_eq_false_iff_not]
    omega
  refine ⟨⟨hinitB, hnfB, hinitL, hnfL⟩, ?_, ?_⟩
  · intro offers
    rw [hinitB]
    exact kbest_run_of_never_full K false hnfB offers []
  · intro paths
    rw [hinitL]
    exact klatest_run_of_never_full K false hnfL paths []

/-- C6 witness: the amended statement instantiated at `max_size = -2`. -/
theorem c6_negative_max_size_witness :
    (-2 : Int) < -1 ∧
      (((KBest.init (-2) : KBest Nat Int) = ⟨[], -2, false⟩ ∧
        (∀ r : List (Nat × Int), KBest.full ⟨r, -2, false⟩ = false) ∧
        (KLatest.init (-2) : KLatest Nat) = ⟨[], -2, false⟩ ∧
        (∀ r : List Nat, KLatest.full ⟨r, -2, false⟩ = false)) ∧
      (∀ offers : List (Int × Nat),
        KBest.runOffers alwaysOk alwaysOk (KBest.init (-2) : KBest Nat Int) offers
          = .ok ⟨offers.foldl (fun acc o => dictInsert o.2 o.1 acc) [], -2, false⟩
              (offers.map (fun o => CbEvent.save o.2))) ∧
      (∀ paths : List Nat,
        KLatest.runOffers alwaysOk alwaysOk (KLatest.init (-2) : KLatest Nat) paths
          = .ok ⟨paths, -2, false⟩ (paths.map CbEvent.save))) :=
  ⟨by decide, c6_negative_max_size (ι := Nat) (α := Int) (-2) (by decide)⟩

/-! ### C8: callback counts and ordering per completed offer -/

/-- C8.  For every offer call that returns normally, in either retainer: a
rejected offer invokes no callback; an accepted offer with free capacity
invokes `save_fn` exactly once and `del_fn` not at all; an accepted offer
arriving at bounded capacity invokes `del_fn` exactly once on the evicted
identifier and then `save_fn` exactly once, in that order. -/
theorem c8_callback_shape [DecidableEq ι] [LinearOrder α] :
    (∀ (del_fn save_fn : ι → Bool) (s : KBest ι α) (metric : α) (path : ι)
        (s2 : KBest ι α) (log : List (CbEvent ι)),
      s.add_checkpoint del_fn save_fn metric path = .ok s2 log →
      (s.should_save metric = .ok false ∧ log = []) ∨
        (s.full = false ∧ log = [.save path]) ∨
        (s.full = true ∧ ∃ w : ι × α, worstRecord s.best_records = some w ∧
          log = [.del w.1, .save path])) ∧
    (∀ (del_fn save_fn : ι → Bool) (s : KLatest ι) (path : ι)
        (s2 : KLatest ι) (log : List (CbEvent ι)),
      s.add_checkpoint del_fn save_fn path = .ok s2 log →
      (s.full = false ∧ log = [.save path]) ∨
        (s.full = true ∧ ∃ e t, s.latest_records = e :: t ∧
          log = [.del e, .save path])) := by
  constructor
  · intro del_fn save_fn s metric path s2 log h
    unfold KBest.add_checkpoint at h
    split at h
    · simp at h
    · unfold KBest.save_checkpoint_and_update at h
      split at h
      · rename_i hf
        split at h
        · simp at h
        · rename_i w hw
          split at h
          · split at h
            · simp only [StepResult.ok.injEq] at h
              exact Or.inr (Or.inr ⟨hf, w, hw, h.2.symm⟩)
            · simp at h
          · simp at h
      · rename_i hf
        split at h
        · simp only [StepResult.ok.injEq] at h
          exact Or.inr (Or.inl ⟨by simpa using hf, h.2.symm⟩)
        · simp at h
    · rename_i hss
      simp only [StepResult.ok.injEq] at h
      exact Or.inl ⟨hss, h.2.symm⟩
  · intro del_fn save_fn s path s2 log h
    unfold KLatest.add_checkpoint KLatest.save_checkpoint_and_update at h
    split at h
    · rename_i hf
      split at h
      · simp at h
      · rename_i e t heq
        split at h
        · split at h
          · simp only [StepResult.ok.injEq] at h
            exact Or.inr ⟨hf, e, t, heq, h.2.symm⟩
          · simp at h
        · simp at h
    · rename_i hf
      split at h
      · simp only [StepResult.ok.injEq] at h
        exact Or.inl ⟨by simpa using hf, h.2.symm⟩
      · simp at h

/-- C8 witness: a full capacity-1 `KBest` accepting a better metric — the
log is exactly the eviction delete followed by the save. -/
theorem c8_callback_shape_witness :
    KBest.add_checkpoint alwaysOk alwaysOk (⟨[(0, 5)], 1, false⟩ : KBest Nat Int) 3 1
        = .ok ⟨[(1, 3)], 1, false⟩ [.del 0, .save 1] ∧
      (((⟨[(0, 5)], 1, false⟩ : KBest Nat Int).should_save 3 = .ok false ∧
          ([CbEvent.del 0, CbEvent.save 1] : List (CbEvent Nat)) = []) ∨
        ((⟨[(0, 5)], 1, false⟩ : KBest Nat Int).full = false ∧
          ([CbEvent.del 0, CbEvent.save 1] : List (CbEvent Nat)) = [.save 1]) ∨
        ((⟨[(0, 5)], 1, false⟩ : KBest Nat Int).full = true ∧
          ∃ w : Nat × Int, worstRecord [((0 : Nat), (5 : Int))] = some w ∧
            ([CbEvent.del 0, CbEvent.save 1] : List (CbEvent Nat))
              = [.del w.1, .save 1])) :=
  ⟨by decide,
    (c8_callback_shape (ι := Nat) (α := Int)).1 alwaysOk alwaysOk
      ⟨[(0, 5)], 1, false⟩ 3 1 ⟨[(1, 3)], 1, false⟩ [.del 0, .save 1] (by decide)⟩

/-! ### C3: the capacity invariant -/

/-- Any property preserved by the state transition of `KBest.add_checkpoint`
(whether the call returns or raises) holds after a whole run. -/
theorem kbest_run_inv [DecidableEq ι] [LinearOrder α]
    (del_fn save_fn : ι → Bool) (P : KBest ι α → Prop)
    (hP : ∀ (s : KBest ι α) (m : α) (p : ι),
      P s → P (stateOf (s.add_checkpoint del_fn save_fn m p))) :
    ∀ (offers : List (α × ι)) (s : KBest ι α),
      P s → P (stateOf (KBest.runOffers del_fn save_fn s offers)) := by
  intro offers
  induction offers with
  | nil => intro s hs; simpa [KBest.runOffers, stateOf] using hs
  | cons o rest ih =>
    intro s hs
    have h1 := hP s o.1 o.2 hs
    simp only [KBest.runOffers]
    cases hres : s.add_checkpoint del_fn save_fn o.1 o.2 with
    | ok s1 log1 =>
      rw [hres] at h1
      dsimp only [stateOf] at h1
      have h2 := ih s1 h1
      dsimp only
      cases hrun : KBest.runOffers del_fn save_fn s1 rest with
      | ok s2 log2 => rw [hrun] at h2; dsimp only [stateOf] at h2 ⊢; exact h2
      | err s2 log2 => rw [hrun] at h2; dsimp only [stateOf] at h2 ⊢; exact h2
    | err s1 log1 =>
      rw [hres] at h1
      dsimp only [stateOf] at h1 ⊢
      exact h1

/-- `KLatest` analogue of `kbest_run_inv`. -/
theorem klatest_run_inv [DecidableEq ι]
    (del_fn save_fn : ι → Bool) (P : KLatest ι → Prop)
    (hP : ∀ (s : KLatest ι) (p : ι),
      P s → P (stateOf (s.add_checkpoint del_fn save_fn p))) :
    ∀ (paths : List ι) (s : KLatest ι),
      P s → P (stateOf (KLatest.runOffers del_fn save_fn s paths)) := by
  intro paths
  induction paths with
  | nil => intro s hs; simpa [KLatest.runOffers, stateOf] using hs
  | cons p rest ih =>
    intro s hs
    have h1 := hP s p hs
    simp only [KLatest.runOffers]
    cases hres : s.add_checkpoint del_fn save_fn p with
    | ok s1 log1 =>
      rw [hres] at h1
      dsimp only [stateOf] at h1
      have h2 := ih s1 h1
      dsimp only
      cases hrun : KLatest.runOffers del_fn save_fn s1 rest with
      | ok s2 log2 => rw [hrun] at h2; dsimp only [stateOf] at h2 ⊢; exact h2
      | err s2 log2 => rw [hrun] at h2; dsimp only [stateOf] at h2 ⊢; exact h2
    | err s1 log1 =>
      rw [hres] at h1
      dsimp only [stateOf] at h1 ⊢
      exact h1

/-- One `KBest` offer, with arbitrary callback outcomes, keeps `max_size`
and `_save_all` and never pushes the record count above `max_size`. -/
theorem kbest_step_bounded [DecidableEq ι] [LinearOrder α]
    (del_fn save_fn : ι → Bool) (s : KBest ι α) (m : α) (p : ι)
    (hsa : s.save_all = false) (hlen : (s.best_records.length : Int) ≤ s.max_size) :
    (stateOf (s.add_checkpoint del_fn save_fn m p)).max_size = s.max_size ∧
      (stateOf (s.add_checkpoint del_fn save_fn m p)).save_all = s.save_all ∧
      ((stateOf (s.add_checkpoint del_fn save_fn m p)).best_records.length : Int)
        ≤ s.max_size := by
  unfold KBest.add_checkpoint
  split
  · exact ⟨rfl, rfl, hlen⟩
  · unfold KBest.save_checkpoint_and_update
    split
    · rename_i hf
      simp only [KBest.full, hsa, Bool.not_false, Bool.true_and, decide_eq_true_eq] at hf
      split
      · exact ⟨rfl, rfl, hlen⟩
      · rename_i w hw
        have hpop := dictPop_length (dictFind_isSome_of_mem (worstRecord_mem hw))
        split
        · split
          · refine ⟨rfl, rfl, ?_⟩
            have hins := dictInsert_length_le p m (dictPop w.1 s.best_records)
            dsimp only [stateOf]
            omega
          · refine ⟨rfl, rfl, ?_⟩
            dsimp only [stateOf]
            omega
        · refine ⟨rfl, rfl, ?_⟩
          dsimp only [stateOf]
          omega
    · rename_i hf
      simp only [KBest.full, hsa, Bool.not_false, Bool.true_and, decide_eq_true_eq] at hf
      split
      · refine ⟨rfl, rfl, ?_⟩
        have hins := dictInsert_length_le p m s.best_records
        dsimp only [stateOf]
        omega
      · exact ⟨rfl, rfl, hlen⟩
  · exact ⟨rfl, rfl, hlen⟩

/-- One `KLatest` offer, with arbitrary callback outcomes, keeps `max_size`
and `_save_all` and never pushes the record count above `max_size`. -/
theorem klatest_step_bounded [DecidableEq ι]
    (del_fn save_fn : ι → Bool) (s : KLatest ι) (p : ι)
    (hsa : s.save_all = false) (hlen : (s.latest_records.length : Int) ≤ s.max_size) :
    (stateOf (s.add_checkpoint del_fn save_fn p)).max_size = s.max_size ∧
      (stateOf (s.add_checkpoint del_fn save_fn p)).save_all = s.save_all ∧
      ((stateOf (s.add_checkpoint del_fn save_fn p)).latest_records.length : Int)
        ≤ s.max_size := by
  unfold KLatest.add_checkpoint KLatest.save_checkpoint_and_update
  split
  · rename_i hf
    simp only [KLatest.full, hsa, Bool.not_false, Bool.true_and, decide_eq_true_eq] at hf
    split
    · exact ⟨rfl, rfl, hlen⟩
    · rename_i e t heq
      have hlt : s.latest_records.length = t.length + 1 := by rw [heq]; rfl
      split
      · split
        · refine ⟨rfl, rfl, ?_⟩
          dsimp only [stateOf]
          have hap : (t ++ [p]).length = t.length + 1 := by simp
          omega
        · refine ⟨rfl, rfl, ?_⟩
          dsimp only [stateOf]
          omega
      · refine ⟨rfl, rfl, ?_⟩
        dsimp only [stateOf]
        omega
  · rename_i hf
    simp only [KLatest.full, hsa, Bool.not_false, Bool.true_and, decide_eq_true_eq] at hf
    split
    · refine ⟨rfl, rfl, ?_⟩
      dsimp only [stateOf]
      have hap : (s.latest_records ++ [p]).length = s.latest_records.length + 1 := by simp
      omega
    · exact ⟨rfl, rfl, hlen⟩

/-- C3.  Capacity invariant: starting from a retainer constructed with a
bounded `max_size` (a non-negative integer, not the `-1` sentinel), the
number of retained identifiers is at most `max_size` after every offer call
of any offer sequence (also when a call aborts in an exception), for
arbitrary callback outcomes.  Quantifying over all offer sequences covers
the state after each individual call, since every prefix of a sequence is
itself a sequence. -/
theorem c3_capacity_invariant [DecidableEq ι] [LinearOrder α] (K : Int) (hK : 0 ≤ K) :
    (∀ (del_fn save_fn : ι → Bool) (offers : List (α × ι)),
      ((stateOf (KBest.runOffers del_fn save_fn (KBest.init K) offers)).best_records.length
          : Int) ≤ K) ∧
    (∀ (del_fn save_fn : ι → Bool) (paths : List ι),
      ((stateOf (KLatest.runOffers del_fn save_fn (KLatest.init K) paths)).latest_records.length
          : Int) ≤ K) := by
  have hKne : ¬(K = -1) := by omega
  constructor
  · intro del_fn save_fn offers
    have h := kbest_run_inv (ι := ι) (α := α) del_fn save_fn
      (fun s => s.save_all = false ∧ s.max_size = K ∧
        ((s.best_records.length : Int) ≤ K))
      (fun s m p hs => by
        have hstep := kbest_step_bounded del_fn save_fn s m p hs.1
          (by rw [hs.2.1]; exact hs.2.2)
        refine ⟨by rw [hstep.2.1, hs.1], by rw [hstep.1, hs.2.1], ?_⟩
        rw [← hs.2.1]
        exact hstep.2.2)
      offers (KBest.init K)
      ⟨by simp [KBest.init, hKne], rfl, by simpa [KBest.init] using hK⟩
    exact h.2.2
  · intro del_fn save_fn paths
    have h := klatest_run_inv (ι := ι) del_fn save_fn
      (fun s => s.save_all = false ∧ s.max_size = K ∧
        ((s.latest_records.length : Int) ≤ K))
      (fun s p hs => by
        have hstep := klatest_step_bounded del_fn save_fn s p hs.1
          (by rw [hs.2.1]; exact hs.2.2)
        refine ⟨by rw [hstep.2.1, hs.1], by rw [hstep.1, hs.2.1], ?_⟩
        rw [← hs.2.1]
        exact hstep.2.2)
      paths (KLatest.init K)
      ⟨by simp [KLatest.init, hKne], rfl, by simpa [KLatest.init] using hK⟩
    exact h.2.2

/-- C3 witness: the invariant instantiated at capacity 1. -/
theorem c3_capacity_invariant_witness :
    (0 : Int) ≤ 1 ∧
      ((∀ (del_fn save_fn : Nat → Bool) (offers : List (Int × Nat)),
        ((stateOf (KBest.runOffers del_fn save_fn (KBest.init 1 : KBest Nat Int)
            offers)).best_records.length : Int) ≤ 1) ∧
      (∀ (del_fn save_fn : Nat → Bool) (paths : List Nat),
        ((stateOf (KLatest.runOffers del_fn save_fn (KLatest.init 1 : KLatest Nat)
            paths)).latest_records.length : Int) ≤ 1)) :=
  ⟨by decide, c3_capacity_invariant (ι := Nat) (α := Int) 1 (by decide)⟩

/-! ### C2: Latest-K correctness -/

/-- Running a bounded (`1 ≤ k`) `KLatest` with succeeding callbacks from any
state with at most `k` records returns normally; the final records are the
length-`≤ k` suffix of (initial records ++ offers), every offer is saved,
and the deletions are exactly the entries that fell out, oldest first. -/
theorem klatest_run_bounded [DecidableEq ι] (k : Nat) (hk : 1 ≤ k) :
    ∀ (paths r : List ι), r.length ≤ k →
      ∃ log, KLatest.runOffers alwaysOk alwaysOk ⟨r, (k : Int), false⟩ paths
          = .ok ⟨(r ++ paths).drop (r.length + paths.length - k), (k : Int), false⟩ log
        ∧ logSaves log = paths
        ∧ logDels log = (r ++ paths).take (r.length + paths.length - k) := by
  intro paths
  induction paths with
  | nil =>
    intro r hr
    refine ⟨[], by simp [KLatest.runOffers, Nat.sub_eq_zero_of_le hr], rfl,
      by simp [Nat.sub_eq_zero_of_le hr, logDels]⟩
  | cons p rest ih =>
    intro r hr
    by_cases hfull : r.length = k
    · cases r with
      | nil => simp at hfull; omega
      | cons h t =>
        simp only [List.length_cons] at hfull hr
        have hfb : KLatest.full ⟨h :: t, (k : Int), false⟩ = true := by
          simp [KLatest.full]
          omega
        have hstep : KLatest.add_checkpoint alwaysOk alwaysOk ⟨h :: t, (k : Int), false⟩ p
            = .ok ⟨t ++ [p], (k : Int), false⟩ [.del h, .save p] := by
          simp [KLatest.add_checkpoint, KLatest.save_checkpoint_and_update, hfb, alwaysOk]
        obtain ⟨log1, hrun, hsv, hdl⟩ := ih (t ++ [p]) (by simp; omega)
        refine ⟨[.del h, .save p] ++ log1, ?_, ?_, ?_⟩
        · simp only [KLatest.runOffers]
          rw [hstep]
          dsimp only
          rw [hrun]
          dsimp only
          have e1 : t ++ [p] ++ rest = t ++ p :: rest := by simp
          have e2 : (t ++ [p]).length + rest.length - k = rest.length := by
            simp only [List.length_append, List.length_singleton, List.length_nil]
            omega
          have e3 : (h :: t).length + (p :: rest).length - k = rest.length + 1 := by
            simp only [List.length_cons]
            omega
          rw [e1, e2, e3, List.cons_append]
          rfl
        · simp [logSaves, hsv]
        · have e1 : t ++ [p] ++ rest = t ++ p :: rest := by simp
          have e2 : (t ++ [p]).length + rest.length - k = rest.length := by
            simp only [List.length_append, List.length_singleton, List.length_nil]
            omega
          have e3 : (h :: t).length + (p :: rest).length - k = rest.length + 1 := by
            simp only [List.length_cons]
            omega
          rw [e1, e2] at hdl
          rw [e3, List.cons_append]
          simp [logDels, hdl]
    · have hfb : KLatest.full ⟨r, (k : Int), false⟩ = false := by
        simp [KLatest.full]
        omega
      have hstep : KLatest.add_checkpoint alwaysOk alwaysOk ⟨r, (k : Int), false⟩ p
          = .ok ⟨r ++ [p], (k : Int), false⟩ [.save p] := by
        simp [KLatest.add_checkpoint, KLatest.save_checkpoint_and_update, hfb, alwaysOk]
      obtain ⟨log1, hrun, hsv, hdl⟩ := ih (r ++ [p]) (by simp; omega)
      refine ⟨[.save p] ++ log1, ?_, ?_, ?_⟩
      · simp only [KLatest.runOffers]
        rw [hstep]
        dsimp only
        rw [hrun]
        dsimp only
        have e1 : r ++ [p] ++ rest = r ++ p :: rest := by simp
        have e2 : (r ++ [p]).length + rest.length = r.length + (p :: rest).length := by
          simp only [List.length_append, List.length_singleton, List.length_nil, List.length_cons]
          omega
        rw [e1, e2]
      · simp [logSaves, hsv]
      · have e1 : r ++ [p] ++ rest = r ++ p :: rest := by simp
        have e2 : (r ++ [p]).length + rest.length = r.length + (p :: rest).length := by
          simp only [List.length_append, List.length_singleton, List.length_nil, List.length_cons]
          omega
        rw [e1, e2] at hdl
        simp [logDels, hdl]

/-- C2.  Latest-K correctness: with capacity `k ≥ 1` and distinct offered
identifiers, a run from a fresh `KLatest` returns normally; the retained
sequence is the last `min(n, k)` offered identifiers in offer order (the
`drop` of the first `n - k`), `save_fn` is invoked once per offer in order
(no offer is ever rejected), and `del_fn` is invoked exactly on the
identifiers that fell out of that suffix, oldest first.  Quantifying over
all offer sequences gives the retained sequence after each offer, since
every prefix is itself a sequence. -/
theorem c2_latest_k_correct [DecidableEq ι] (k : Nat) (hk : 1 ≤ k)
    (paths : List ι) (_hnd : paths.Nodup) :
    ∃ log, KLatest.runOffers alwaysOk alwaysOk (KLatest.init (k : Int)) paths
        = .ok ⟨paths.drop (paths.length - k), (k : Int), false⟩ log
      ∧ logSaves log = paths
      ∧ logDels log = paths.take (paths.length - k) := by
  have hne : ¬((k : Int) = -1) := by omega
  have hinit : (KLatest.init (k : Int) : KLatest ι) = ⟨[], (k : Int), false⟩ := by
    simp [KLatest.init, hne]
  rw [hinit]
  simpa using klatest_run_bounded k hk paths [] (by simp)

/-- C2 witness: capacity 2, offers `[0, 1, 2]` — retained `[1, 2]`, three
saves, one delete of `0`. -/
theorem c2_latest_k_correct_witness :
    1 ≤ 2 ∧ ([0, 1, 2] : List Nat).Nodup ∧
      (∃ log, KLatest.runOffers alwaysOk alwaysOk
          (KLatest.init ((2 : Nat) : Int) : KLatest Nat) [0, 1, 2]
        = .ok ⟨([0, 1, 2] : List Nat).drop (([0, 1, 2] : List Nat).length - 2),
            ((2 : Nat) : Int), false⟩ log
        ∧ logSaves log = [0, 1, 2]
        ∧ logDels log = ([0, 1, 2] : List Nat).take (([0, 1, 2] : List Nat).length - 2)) :=
  ⟨by decide, by decide, c2_latest_k_correct 2 (by decide) [0, 1, 2] (by decide)⟩

/-! ### C1: Best-K online correctness against the reference simulation -/

/-- The reference simulation step never exceeds the capacity `K ≥ 1`. -/
theorem refStep_length [DecidableEq ι] [LinearOrder α] (K : Int)
    (r : List (ι × α)) (hr : (r.length : Int) ≤ K) (m : α) (p : ι) :
    ((refStep K r m p).length : Int) ≤ K := by
  unfold refStep
  split
  · split
    · rename_i hlt
      rw [decide_eq_true_eq] at hlt
      have hins := dictInsert_length_le p m r
      omega
    · split
      · exact hr
      · rename_i w hw
        have hpop := dictPop_length (dictFind_isSome_of_mem (worstRecord_mem hw))
        have hins := dictInsert_length_le p m (dictPop w.1 r)
        omega
  · exact hr

/-- One `KBest` offer with succeeding callbacks agrees with one step of the
spec's reference online simulation. -/
theorem kbest_step_refines [DecidableEq ι] [LinearOrder α] (K : Int) (hK : 1 ≤ K)
    (r : List (ι × α)) (hr : (r.length : Int) ≤ K) (m : α) (p : ι) :
    ∃ log, KBest.add_checkpoint alwaysOk alwaysOk ⟨r, K, false⟩ m p
        = .ok ⟨refStep K r m p, K, false⟩ log := by
  by_cases hfull : (r.length : Int) = K
  · cases r with
    | nil => simp at hfull; omega
    | cons kv tl =>
      have hfb : KBest.full ⟨kv :: tl, K, false⟩ = true := by
        simp only [KBest.full, Bool.not_false, Bool.true_and, decide_eq_true_eq]
        exact hfull
      have hnlt : ¬(((kv :: tl).length : Int) < K) := by omega
      have hw : worstRecord (kv :: tl) = some (pyMaxRecord kv tl) := rfl
      by_cases hacc : m < (pyMaxRecord kv tl).2
      · refine ⟨[.del (pyMaxRecord kv tl).1, .save p], ?_⟩
        have hstep : KBest.add_checkpoint alwaysOk alwaysOk ⟨kv :: tl, K, false⟩ m p
            = .ok ⟨dictInsert p m (dictPop (pyMaxRecord kv tl).1 (kv :: tl)), K, false⟩
                [.del (pyMaxRecord kv tl).1, .save p] := by
          simp [KBest.add_checkpoint, KBest.should_save, hfb, hw, hacc,
            KBest.save_checkpoint_and_update, alwaysOk]
        rw [hstep]
        have hra : refAccept K (kv :: tl) m = true := by
          simp [refAccept, hw, hacc]
        have hnlt2 : ¬((tl.length : Int) + 1 < K) := by
          simp only [List.length_cons] at hfull
          push_cast at hfull
          omega
        simp [refStep, hra, hw]
        rw [if_neg hnlt2]
      · refine ⟨[], ?_⟩
        have hstep : KBest.add_checkpoint alwaysOk alwaysOk ⟨kv :: tl, K, false⟩ m p
            = .ok ⟨kv :: tl, K, false⟩ [] := by
          simp [KBest.add_checkpoint, KBest.should_save, hfb, hw, hacc]
        rw [hstep]
        have hle : K ≤ (tl.length : Int) + 1 := by
          simp only [List.length_cons] at hfull
          push_cast at hfull
          omega
        have hra : refAccept K (kv :: tl) m = false := by
          simp [refAccept, hw, hacc]
          exact hle
        simp [refStep, hra]
  · have hlt : (r.length : Int) < K := lt_of_le_of_ne hr hfull
    have hfb : KBest.full ⟨r, K, false⟩ = false := by
      simp only [KBest.full, Bool.not_false, Bool.true_and, decide_eq_false_iff_not]
      exact hfull
    refine ⟨[.save p], ?_⟩
    have hstep : KBest.add_checkpoint alwaysOk alwaysOk ⟨r, K, false⟩ m p
        = .ok ⟨dictInsert p m r, K, false⟩ [.save p] := by
      simp [KBest.add_checkpoint, KBest.should_save, hfb,
        KBest.save_checkpoint_and_update, alwaysOk]
    rw [hstep]
    have hra : refAccept K r m = true := by
      simp [refAccept, hlt]
    simp [refStep, hra, hlt]

/-- A whole `KBest` run with succeeding callbacks agrees with the folded
reference simulation from the same starting records. -/
theorem kbest_run_refines [DecidableEq ι] [LinearOrder α] (K : Int) (hK : 1 ≤ K) :
    ∀ (offers : List (α × ι)) (r : List (ι × α)), (r.length : Int) ≤ K →
      ∃ log, KBest.runOffers alwaysOk alwaysOk ⟨r, K, false⟩ offers
          = .ok ⟨offers.foldl (fun acc o => refStep K acc o.1 o.2) r, K, false⟩ log := by
  intro offers
  induction offers with
  | nil => intro r hr; exact ⟨[], by simp [KBest.runOffers]⟩
  | cons o rest ih =>
    intro r hr
    obtain ⟨log1, hstep⟩ := kbest_step_refines K hK r hr o.1 o.2
    obtain ⟨log2, hrun⟩ := ih (refStep K r o.1 o.2) (refStep_length K r hr o.1 o.2)
    refine ⟨log1 ++ log2, ?_⟩
    simp only [KBest.runOffers]
    rw [hstep]
    dsimp only
    rw [hrun]
    rfl

/-- C1.  Best-K online correctness: for every offer sequence and bounded
capacity `K ≥ 1`, running a fresh `KBest` (with succeeding callbacks)
returns normally and its final retained map equals the result of the
reference online simulation `refRun`, which accepts an offer iff there is
free capacity or the score is strictly lower than the current worst
retained score and, on acceptance at capacity, evicts the currently
worst-scoring retained identifier before inserting the new pair. -/
theorem c1_best_k_refinement [DecidableEq ι] [LinearOrder α] (K : Int) (hK : 1 ≤ K)
    (offers : List (α × ι)) :
    ∃ log, KBest.runOffers alwaysOk alwaysOk (KBest.init K) offers
        = .ok ⟨refRun K offers, K, false⟩ log := by
  have hne : ¬(K = -1) := by omega
  have hinit : (KBest.init K : KBest ι α) = ⟨[], K, false⟩ := by
    simp [KBest.init, hne]
  rw [hinit]
  exact kbest_run_refines K hK offers []
    (by simp only [List.length_nil, Nat.cast_zero]; omega)

/-- C1 witness: the spec's second example scenario — capacity 2, offers
`(0.5, a), (0.3, b), (0.1, c)` (scaled to integers). -/
theorem c1_best_k_refinement_witness :
    (1 : Int) ≤ 2 ∧
      (∃ log, KBest.runOffers alwaysOk alwaysOk (KBest.init 2 : KBest Nat Int)
          [(5, 0), (3, 1), (1, 2)]
        = .ok ⟨refRun 2 [(5, 0), (3, 1), (1, 2)], 2, false⟩ log) :=
  ⟨by decide, c1_best_k_refinement 2 (by decide) [(5, 0), (3, 1), (1, 2)]⟩

end Parakeet
